import Mathlib

/-!
Verification of the market-data acquisition-and-cache layer of
`market_report_generator` (file `utils/data_fetcher.py`), shallowly embedded
in Lean 4.

Modelling conventions:
* Python floats are modelled as exact rationals (`ℚ`); `round(x, 1)` is
  modelled as rounding `10*x` to the nearest integer and dividing by 10.
* Python `None` / missing dictionary keys become `Option`.
* Python truthiness (`if cached:`, `a or b`, `x and y`) is modelled explicitly:
  a number is truthy iff nonzero, a string iff nonempty, `None` is falsy.
  Cached values are nonempty dicts in the source, hence always truthy, so a
  cache hit is modelled as `some`.
* The fetcher's mutable state (`self.cache`, `self.cache_time`) becomes an
  explicit state value threaded through each operation.  The source keeps one
  dictionary for all fetchers, but the key spaces are disjoint by construction
  (prefixes `"stock_"`, `"index_"` and the fixed key `"fear_greed"`), so each
  fetcher is modelled over the state projected to its own value type.
* The external providers (`yfinance`, the sentiment HTTP endpoint) are
  parameters of type `Except Unit data`: `.error` models a raised exception
  (network failure, malformed body, any crash inside the provider call),
  `.ok` a successful response whose individual fields may still be missing.
  The source's `try/except` blocks become matches on that `Except` value.
* `time.sleep` in the batch loop only throttles real time and is not
  observable in the model; all fetches of one batch share one clock value.
-/

/-- Python truthiness of an optional number: `None` and `0` are falsy. -/
def pyTruthyQ : Option ℚ → Bool
  | none => false
  | some x => x != 0

/-- Python truthiness of an optional string: `None` and `""` are falsy. -/
def pyTruthyS : Option String → Bool
  | none => false
  | some s => s != ""

/-- Python `a or b` on optional numbers: first truthy operand, else `b`. -/
def pyOrQ (a b : Option ℚ) : Option ℚ :=
  if pyTruthyQ a then a else b

/-- Python `a or b` on optional strings: first truthy operand, else `b`. -/
def pyOrS (a b : Option String) : Option String :=
  if pyTruthyS a then a else b

/-- `round(x, 1)`: round to one decimal place. -/
def round1 (x : ℚ) : ℚ :=
  ((round (10 * x) : ℤ) : ℚ) / 10

/-- `DataFetcher._calculate_rsi`, over the closing prices `hist['Close']`
(oldest first).  Mirrors the source line by line: guard on length, per-step
deltas, clamped gains and losses, seed averages as plain means of the first
`period` entries, exponential smoothing of the remaining entries, and the
`avg_loss == 0` short-circuit. -/
def _calculate_rsi (closes : List ℚ) (period : Nat) : Option ℚ :=
  if closes.length < period + 1 then none
  else
    let deltas := List.zipWith (fun a b => b - a) closes closes.tail
    let gains := deltas.map (fun d => if d < 0 then 0 else d)
    let losses := deltas.map (fun d => if 0 < d then 0 else -d)
    let seed_gain := (gains.take period).sum / (period : ℚ)
    let seed_loss := (losses.take period).sum / (period : ℚ)
    let avg_gain := (gains.drop period).foldl
      (fun avg g => (avg * ((period : ℚ) - 1) + g) / (period : ℚ)) seed_gain
    let avg_loss := (losses.drop period).foldl
      (fun avg l => (avg * ((period : ℚ) - 1) + l) / (period : ℚ)) seed_loss
    if avg_loss = 0 then some 100
    else some (round1 (100 - 100 / (1 + avg_gain / avg_loss)))

/-- The RSI computation as the specification words it (period fixed at 14):
gains are `delta` when `delta > 0` else `0`, losses are `-delta` when
`delta < 0` else `0`, seeds are the simple means of the first 14 gain/loss
values, each remaining value is folded with `avg = (avg*13 + new)/14`, and
the result is `100` when the final average loss is `0`, else
`round(100 - 100/(1 + avg_gain/avg_loss), 1)`. -/
def rsiSpec (closes : List ℚ) : Option ℚ :=
  if closes.length < 15 then none
  else
    let deltas := List.zipWith (fun a b => b - a) closes closes.tail
    let gains := deltas.map (fun d => if 0 < d then d else 0)
    let losses := deltas.map (fun d => if d < 0 then -d else 0)
    let avg_gain := (gains.drop 14).foldl
      (fun avg g => (avg * 13 + g) / 14) ((gains.take 14).sum / 14)
    let avg_loss := (losses.drop 14).foldl
      (fun avg l => (avg * 13 + l) / 14) ((losses.take 14).sum / 14)
    if avg_loss = 0 then some 100
    else some (round1 (100 - 100 / (1 + avg_gain / avg_loss)))

/-- `DataFetcher._interpret_fear_greed`. -/
def _interpret_fear_greed (score : ℚ) : String :=
  if score < 25 then "极度恐惧"
  else if score < 45 then "恐惧"
  else if score ≤ 55 then "中性"
  else if score ≤ 75 then "贪婪"
  else "极度贪婪"

/-- The fetcher's cache state: `self.cache` and `self.cache_time`, as partial
maps from key strings. -/
structure CacheSt (V : Type) where
  cache : String → Option V
  cache_time : String → Option ℚ

/-- `self.cache_duration = 300` (five minutes, in seconds). -/
def cache_duration : ℚ := 300

/-- The empty cache of a freshly constructed `DataFetcher`. -/
def emptyCache (V : Type) : CacheSt V :=
  ⟨fun _ => none, fun _ => none⟩

/-- `DataFetcher._get_from_cache`: the stored value, provided the key is in
both dictionaries and `now - stored_at < cache_duration`; `None` otherwise. -/
def _get_from_cache {V : Type} (st : CacheSt V) (key : String) (now : ℚ) :
    Option V :=
  match st.cache key, st.cache_time key with
  | some v, some t => if now - t < cache_duration then some v else none
  | _, _ => none

/-- `_get_from_cache` as a state transition: the method reads `self.cache`
and `self.cache_time` and assigns to neither, so the post-state is the
pre-state. -/
def _get_from_cache_step {V : Type} (st : CacheSt V) (key : String) (now : ℚ) :
    Option V × CacheSt V :=
  (_get_from_cache st key now, st)

/-- `DataFetcher._set_cache`: store the value and stamp the key with `now`. -/
def _set_cache {V : Type} (st : CacheSt V) (key : String) (v : V) (now : ℚ) :
    CacheSt V :=
  ⟨fun k => if k = key then some v else st.cache k,
   fun k => if k = key then some now else st.cache_time k⟩

/-- One successful `yf.Ticker` interaction for an equity: the `info` fields
`get_stock_data` reads (each possibly missing) and the closing prices of
`history(period="1mo")`, oldest first. -/
structure TickerInfo where
  currentPrice : Option ℚ
  regularMarketPrice : Option ℚ
  previousClose : Option ℚ
  shortName : Option String
  longName : Option String
  volume : Option ℚ
  regularMarketVolume : Option ℚ
  marketCap : Option ℚ
  trailingPE : Option ℚ
  forwardPE : Option ℚ
  pegRatio : Option ℚ
  fiftyTwoWeekHigh : Option ℚ
  fiftyTwoWeekLow : Option ℚ
  averageVolume : Option ℚ
  beta : Option ℚ
  sector : Option String
  industry : Option String
  closes : List ℚ
deriving DecidableEq

/-- The `data` dictionary `get_stock_data` builds. -/
structure StockQuote where
  ticker : String
  name : Option String
  current_price : Option ℚ
  previous_close : Option ℚ
  change : Option ℚ
  change_pct : Option ℚ
  volume : Option ℚ
  market_cap : Option ℚ
  pe_ratio : Option ℚ
  forward_pe : Option ℚ
  peg_ratio : Option ℚ
  rsi : Option ℚ
  ma20 : Option ℚ
  ma50 : Option ℚ
  fifty_two_week_high : Option ℚ
  fifty_two_week_low : Option ℚ
  avg_volume : Option ℚ
  beta : Option ℚ
  sector : Option String
  industry : Option String
  timestamp : ℚ
deriving DecidableEq

/-- `hist['Close'].rolling(window=w).mean().iloc[-1] if len(hist) >= w else
None`: the mean of the last `w` closes when at least `w` are available. -/
def rollingMeanLast (closes : List ℚ) (w : Nat) : Option ℚ :=
  if w ≤ closes.length then some (((closes.reverse.take w).sum) / (w : ℚ))
  else none

/-- The body of `get_stock_data` that assembles the `data` dictionary from a
successful provider response, exactly as the source does: the truthiness
chains for `current_price`, `name` and `volume`, the guarded computation of
`change`/`change_pct`, and the indicator calls. -/
def mkStockData (ticker : String) (d : TickerInfo) (now : ℚ) : StockQuote :=
  let rsi := _calculate_rsi d.closes 14
  let ma20 := rollingMeanLast d.closes 20
  let ma50 := rollingMeanLast d.closes 50
  let current_price := pyOrQ d.currentPrice (pyOrQ d.regularMarketPrice d.previousClose)
  let prev_close := d.previousClose
  let cond := pyTruthyQ current_price && pyTruthyQ prev_close
    && decide (0 < prev_close.getD 0)
  let change := if cond then some (current_price.getD 0 - prev_close.getD 0) else none
  let change_pct := if cond then
      some ((current_price.getD 0 - prev_close.getD 0) / prev_close.getD 0 * 100)
    else none
  { ticker := ticker
    name := pyOrS d.shortName d.longName
    current_price := current_price
    previous_close := prev_close
    change := change
    change_pct := change_pct
    volume := pyOrQ d.volume d.regularMarketVolume
    market_cap := d.marketCap
    pe_ratio := d.trailingPE
    forward_pe := d.forwardPE
    peg_ratio := d.pegRatio
    rsi := rsi
    ma20 := ma20
    ma50 := ma50
    fifty_two_week_high := d.fiftyTwoWeekHigh
    fifty_two_week_low := d.fiftyTwoWeekLow
    avg_volume := d.averageVolume
    beta := d.beta
    sector := d.sector
    industry := d.industry
    timestamp := now }

/-- `DataFetcher.get_stock_data`.  `provider` is the outcome of the
`yf.Ticker(ticker)` interaction inside the `try` block: `.error` models any
exception raised there, which the `except` arm turns into `None` with the
state untouched.  Returns the result together with the post-state. -/
def get_stock_data (st : CacheSt StockQuote) (now : ℚ) (ticker : String)
    (provider : Except Unit TickerInfo) : Option StockQuote × CacheSt StockQuote :=
  let cache_key := "stock_" ++ ticker
  match _get_from_cache st cache_key now with
  | some cached => (some cached, st)
  | none =>
    match provider with
    | .error _ => (none, st)
    | .ok d =>
      let data := mkStockData ticker d now
      (some data, _set_cache st cache_key data now)

/-- A successful `yf.Ticker` interaction for an index: the `info` fields
`get_index_data` reads. -/
structure IndexInfo where
  regularMarketPrice : Option ℚ
  previousClose : Option ℚ
  shortName : Option String
  longName : Option String
deriving DecidableEq

/-- The `data` dictionary `get_index_data` builds. -/
structure IndexQuote where
  symbol : String
  name : Option String
  current : Option ℚ
  previous_close : Option ℚ
  change : Option ℚ
  change_pct : Option ℚ
  timestamp : ℚ
deriving DecidableEq

/-- The body of `get_index_data` that assembles the `data` dictionary from a
successful provider response. -/
def mkIndexData (symbol : String) (d : IndexInfo) (now : ℚ) : IndexQuote :=
  let current := pyOrQ d.regularMarketPrice d.previousClose
  let prev_close := d.previousClose
  let cond := pyTruthyQ current && pyTruthyQ prev_close
    && decide (0 < prev_close.getD 0)
  let change := if cond then some (current.getD 0 - prev_close.getD 0) else none
  let change_pct := if cond then
      some ((current.getD 0 - prev_close.getD 0) / prev_close.getD 0 * 100)
    else none
  { symbol := symbol
    name := pyOrS d.shortName d.longName
    current := current
    previous_close := prev_close
    change := change
    change_pct := change_pct
    timestamp := now }

/-- `DataFetcher.get_index_data`, with the provider interaction as an
`Except` parameter as in `get_stock_data`. -/
def get_index_data (st : CacheSt IndexQuote) (now : ℚ) (symbol : String)
    (provider : Except Unit IndexInfo) : Option IndexQuote × CacheSt IndexQuote :=
  let cache_key := "index_" ++ symbol
  match _get_from_cache st cache_key now with
  | some cached => (some cached, st)
  | none =>
    match provider with
    | .error _ => (none, st)
    | .ok d =>
      let data := mkIndexData symbol d now
      (some data, _set_cache st cache_key data now)

/-- The parsed JSON body of the sentiment endpoint.  `fear_and_greed = some
inner` models the key `'fear_and_greed'` being present with
`data['fear_and_greed'].get('score') = inner`; `score` is the top-level
`'score'` key. -/
structure FGJson where
  fear_and_greed : Option (Option ℚ)
  score : Option ℚ
deriving DecidableEq

/-- The score-extraction chain of `get_fear_greed_index`: `'fear_and_greed'`
takes precedence over a top-level `'score'`. -/
def fgScore (j : FGJson) : Option ℚ :=
  match j.fear_and_greed with
  | some inner => inner
  | none => j.score

/-- The `result` dictionary `get_fear_greed_index` builds. -/
structure FGResult where
  score : ℚ
  level : String
  timestamp : ℚ
deriving DecidableEq

/-- `DataFetcher.get_fear_greed_index`: cache check, then the HTTP call and
JSON parse (the `Except` parameter; `.error` models a raised network or
parse error), then the score extraction; a missing score falls through to
`return None` without touching the cache. -/
def get_fear_greed_index (st : CacheSt FGResult) (now : ℚ)
    (provider : Except Unit FGJson) : Option FGResult × CacheSt FGResult :=
  match _get_from_cache st "fear_greed" now with
  | some cached => (some cached, st)
  | none =>
    match provider with
    | .error _ => (none, st)
    | .ok j =>
      match fgScore j with
      | none => (none, st)
      | some s =>
        let result : FGResult := ⟨s, _interpret_fear_greed s, now⟩
        (some result, _set_cache st "fear_greed" result now)

/-- Python-dict insertion: update in place when the key exists, else append
(dicts preserve insertion order). -/
def dictInsert {α : Type} (l : List (String × α)) (k : String) (v : α) :
    List (String × α) :=
  if l.any (fun p => p.1 = k) then
    l.map (fun p => if p.1 = k then (k, v) else p)
  else l ++ [(k, v)]

/-- Lookup in a Python-dict association list. -/
def dictLookup {α : Type} (l : List (String × α)) (k : String) : Option α :=
  (l.find? (fun p => p.1 = k)).map (fun p => p.2)

/-- The loop of `batch_get_stocks`: fetch each ticker in order against the
threaded cache state, keeping only truthy results.  The per-iteration
`time.sleep(0.2)` is unobservable in the model. -/
def batchGo (now : ℚ) (provider : String → Except Unit TickerInfo) :
    List String → CacheSt StockQuote → List (String × StockQuote) →
    List (String × StockQuote) × CacheSt StockQuote
  | [], st, results => (results, st)
  | ticker :: rest, st, results =>
    match get_stock_data st now ticker (provider ticker) with
    | (some data, st') => batchGo now provider rest st' (dictInsert results ticker data)
    | (none, st') => batchGo now provider rest st' results

/-- `DataFetcher.batch_get_stocks`. -/
def batch_get_stocks (tickers : List String) (st : CacheSt StockQuote)
    (now : ℚ) (provider : String → Except Unit TickerInfo) :
    List (String × StockQuote) × CacheSt StockQuote :=
  batchGo now provider tickers st []

/-- The sequence of individual fetch outcomes of one `batch_get_stocks` run:
for each requested ticker in order, the result of its `get_stock_data`
invocation against the cache state as threaded by the loop.  This is an
observation of the source's loop, used to state what the returned mapping
contains. -/
def batchTrace (now : ℚ) (provider : String → Except Unit TickerInfo) :
    List String → CacheSt StockQuote → List (String × Option StockQuote)
  | [], _ => []
  | t :: rest, st =>
    (t, (get_stock_data st now t (provider t)).1) ::
      batchTrace now provider rest (get_stock_data st now t (provider t)).2

/-- The mapping described by the claim, read off a sequence of individual
fetch outcomes: a symbol is present iff one of its fetches succeeded, and it
is mapped to the quote of its last successful fetch (re-fetches of a
duplicated symbol overwrite its dict entry in the source). -/
def lastSuccessfulQuote (tr : List (String × Option StockQuote)) (s : String) :
    Option StockQuote :=
  tr.foldl (fun a p => if p.1 = s then p.2.or a else a) none

/-- A provider response with every `info` field missing and empty history. -/
def tiEmpty : TickerInfo :=
  ⟨none, none, none, none, none, none, none, none, none, none, none, none,
   none, none, none, none, none, []⟩

/-- A provider that answers for `"A"` and `"C"` and raises for everything
else, used to instantiate the batch example concretely. -/
def provABC : String → Except Unit TickerInfo :=
  fun t => if t = "A" then .ok tiEmpty
    else if t = "C" then .ok tiEmpty
    else .error ()

/-! ### Helper lemmas -/

lemma pyTruthyQ_pyOrQ (a b : Option ℚ) :
    pyTruthyQ (pyOrQ a b) = (pyTruthyQ a || pyTruthyQ b) := by
  unfold pyOrQ
  split
  · next h => simp [h]
  · next h => simp [h]

lemma pyTruthyQ_some_iff (x : Option ℚ) :
    pyTruthyQ x = true ↔ ∃ c, x = some c ∧ c ≠ 0 := by
  cases x with
  | none => simp [pyTruthyQ]
  | some c => simp [pyTruthyQ]

/-! ### C7: fear/greed interpretation thresholds -/

/-- C7.  `_interpret_fear_greed` maps every numeric score to exactly one
level by the fixed thresholds: `score < 25 →` extreme fear, `25 ≤ score <
45 →` fear, `45 ≤ score ≤ 55 →` neutral, `55 < score ≤ 75 →` greed,
`score > 75 →` extreme greed. -/
theorem interpret_fear_greed_thresholds (s : ℚ) :
    (s < 25 → _interpret_fear_greed s = "极度恐惧") ∧
    (25 ≤ s → s < 45 → _interpret_fear_greed s = "恐惧") ∧
    (45 ≤ s → s ≤ 55 → _interpret_fear_greed s = "中性") ∧
    (55 < s → s ≤ 75 → _interpret_fear_greed s = "贪婪") ∧
    (75 < s → _interpret_fear_greed s = "极度贪婪") := by
  unfold _interpret_fear_greed
  refine ⟨fun h1 => ?_, fun h1 h2 => ?_, fun h1 h2 => ?_, fun h1 h2 => ?_,
    fun h1 => ?_⟩ <;>
    (split_ifs <;> first | rfl | linarith)

/-- Witness for C7 at the concrete score 50 (neutral band). -/
theorem interpret_fear_greed_thresholds_witness :
    _interpret_fear_greed 50 = "中性" :=
  (interpret_fear_greed_thresholds 50).2.2.1 (by norm_num) (by norm_num)

/-! ### C2: cache TTL round trip -/

/-- C2.  A value stored at time `T` is returned unchanged by a read at any
`T' < T + 300`, and a read at any `T' ≥ T + 300` misses; on such a miss,
`get_stock_data` performs a fresh provider fetch and re-caches it. -/
theorem cache_ttl_roundtrip (V : Type) (st : CacheSt V) (key : String)
    (v : V) (T Tr : ℚ) :
    (Tr - T < 300 → _get_from_cache (_set_cache st key v T) key Tr = some v) ∧
    (300 ≤ Tr - T → _get_from_cache (_set_cache st key v T) key Tr = none) ∧
    (∀ (stq : CacheSt StockQuote) (q : StockQuote) (ticker : String)
       (d : TickerInfo), 300 ≤ Tr - T →
      get_stock_data (_set_cache stq ("stock_" ++ ticker) q T) Tr ticker (.ok d)
        = (some (mkStockData ticker d Tr),
           _set_cache (_set_cache stq ("stock_" ++ ticker) q T)
             ("stock_" ++ ticker) (mkStockData ticker d Tr) Tr)) := by
  refine ⟨fun h => ?_, fun h => ?_, fun stq q ticker d h => ?_⟩
  · simp [_get_from_cache, _set_cache, cache_duration, h]
  · simp [_get_from_cache, _set_cache, cache_duration, not_lt.2 h]
  · have hmiss : _get_from_cache (_set_cache stq ("stock_" ++ ticker) q T)
        ("stock_" ++ ticker) Tr = none := by
      simp [_get_from_cache, _set_cache, cache_duration, not_lt.2 h]
    simp [get_stock_data, hmiss]

/-- Witness for C2: store at `T = 0`, read at 299 (hit) and at 301 (miss),
then refetch at 301. -/
theorem cache_ttl_roundtrip_witness :
    _get_from_cache (_set_cache (emptyCache ℚ) "k" 7 0) "k" 299 = some 7 ∧
    _get_from_cache (_set_cache (emptyCache ℚ) "k" 7 0) "k" 301 = none ∧
    (get_stock_data
        (_set_cache (emptyCache StockQuote) ("stock_" ++ "A")
          (mkStockData "A" tiEmpty 0) 0) 301 "A" (.ok tiEmpty)).1
      = some (mkStockData "A" tiEmpty 301) :=
  ⟨(cache_ttl_roundtrip ℚ (emptyCache ℚ) "k" 7 0 299).1 (by norm_num),
   (cache_ttl_roundtrip ℚ (emptyCache ℚ) "k" 7 0 301).2.1 (by norm_num),
   by
    rw [(cache_ttl_roundtrip StockQuote (emptyCache StockQuote) "k"
        (mkStockData "A" tiEmpty 0) 0 301).2.2 (emptyCache StockQuote)
        (mkStockData "A" tiEmpty 0) "A" tiEmpty (by norm_num)]⟩

/-! ### C9: cache reads are pure -/

/-- C9.  A cache read leaves the whole cache state unchanged: both maps are
untouched for every key; an expired entry is not evicted (it stays stored
while the read returns `none`), and only the next `_set_cache` for the key
overwrites it. -/
theorem cache_read_pure (V : Type) (st : CacheSt V) (key k' : String)
    (now : ℚ) :
    (_get_from_cache_step st key now).2 = st ∧
    ((_get_from_cache_step st key now).2).cache k' = st.cache k' ∧
    ((_get_from_cache_step st key now).2).cache_time k' = st.cache_time k' ∧
    (∀ v t, st.cache key = some v → st.cache_time key = some t →
      300 ≤ now - t →
      (_get_from_cache_step st key now).1 = none ∧
      ((_get_from_cache_step st key now).2).cache key = some v ∧
      ((_get_from_cache_step st key now).2).cache_time key = some t) ∧
    (∀ (w : V) (now' : ℚ),
      (_set_cache st key w now').cache key = some w ∧
      (_set_cache st key w now').cache_time key = some now') := by
  refine ⟨rfl, rfl, rfl, fun v t hv ht hexp => ⟨?_, hv, ht⟩,
    fun w now' => ⟨by simp [_set_cache], by simp [_set_cache]⟩⟩
  simp [_get_from_cache_step, _get_from_cache, hv, ht, cache_duration,
    not_lt.2 hexp]

/-- Witness for C9: an entry stored at time 0 and read at time 400 is
expired (the read returns `none`) yet remains stored, untouched. -/
theorem cache_read_pure_witness :
    (_get_from_cache_step (_set_cache (emptyCache ℚ) "k" 5 0) "k" 400).1 = none ∧
    ((_get_from_cache_step (_set_cache (emptyCache ℚ) "k" 5 0) "k" 400).2).cache "k"
      = some 5 ∧
    ((_get_from_cache_step (_set_cache (emptyCache ℚ) "k" 5 0) "k" 400).2).cache_time "k"
      = some 0 :=
  (cache_read_pure ℚ (_set_cache (emptyCache ℚ) "k" 5 0) "k" "k" 400).2.2.2.1
    5 0 (by simp [_set_cache]) (by simp [_set_cache]) (by norm_num)

/-! ### C10: failed fetches leave the cache unchanged -/

/-- C10.  Whenever `get_stock_data`, `get_index_data` or
`get_fear_greed_index` returns absent, the post-state equals the pre-state:
no cache entry is added, overwritten or removed (`_set_cache` runs only on
the success path). -/
theorem failed_fetch_frame :
    (∀ (st : CacheSt StockQuote) (now : ℚ) (t : String)
       (pb : Except Unit TickerInfo),
      (get_stock_data st now t pb).1 = none → (get_stock_data st now t pb).2 = st) ∧
    (∀ (st : CacheSt IndexQuote) (now : ℚ) (s : String)
       (pb : Except Unit IndexInfo),
      (get_index_data st now s pb).1 = none → (get_index_data st now s pb).2 = st) ∧
    (∀ (st : CacheSt FGResult) (now : ℚ) (pb : Except Unit FGJson),
      (get_fear_greed_index st now pb).1 = none →
      (get_fear_greed_index st now pb).2 = st) := by
  refine ⟨fun st now t pb h => ?_, fun st now s pb h => ?_, fun st now pb h => ?_⟩
  · unfold get_stock_data at *
    cases hc : _get_from_cache st ("stock_" ++ t) now with
    | some q => simp [hc] at h
    | none =>
      cases pb with
      | error e => simp [hc]
      | ok d => simp [hc] at h
  · unfold get_index_data at *
    cases hc : _get_from_cache st ("index_" ++ s) now with
    | some q => simp [hc] at h
    | none =>
      cases pb with
      | error e => simp [hc]
      | ok d => simp [hc] at h
  · unfold get_fear_greed_index at *
    cases hc : _get_from_cache st "fear_greed" now with
    | some q => simp [hc] at h
    | none =>
      cases pb with
      | error e => simp [hc]
      | ok j =>
        cases hs : fgScore j with
        | none => simp [hc, hs]
        | some s => simp [hc, hs] at h

/-- Witness for C10: a failing stock fetch against an empty cache returns
absent and leaves the cache empty. -/
theorem failed_fetch_frame_witness :
    (get_stock_data (emptyCache StockQuote) 0 "A" (.error ())).2
      = emptyCache StockQuote :=
  failed_fetch_frame.1 (emptyCache StockQuote) 0 "A" (.error ()) rfl

/-! ### C5: fetch-level errors never escape the fetcher -/

/-- C5.  Every fetch-level operation degrades failures locally and nothing
propagates past the fetcher boundary: a raised provider call
(`.error`, covering network failure and malformed bodies) makes each of
`get_stock_data`, `get_index_data` and `get_fear_greed_index` return exactly
what the cache holds (absent on a cache miss) with the state unchanged; a
parsed sentiment body with no score likewise yields absent; and insufficient
history degrades only the RSI field to absent.  All fetchers are total
functions into `Option`-valued results, so no error reaches the caller. -/
theorem fetchers_never_raise :
    (∀ (st : CacheSt StockQuote) (now : ℚ) (t : String),
      get_stock_data st now t (.error ())
        = (_get_from_cache st ("stock_" ++ t) now, st)) ∧
    (∀ (st : CacheSt IndexQuote) (now : ℚ) (s : String),
      get_index_data st now s (.error ())
        = (_get_from_cache st ("index_" ++ s) now, st)) ∧
    (∀ (st : CacheSt FGResult) (now : ℚ),
      get_fear_greed_index st now (.error ())
        = (_get_from_cache st "fear_greed" now, st)) ∧
    (∀ (st : CacheSt FGResult) (now : ℚ) (j : FGJson), fgScore j = none →
      get_fear_greed_index st now (.ok j)
        = (_get_from_cache st "fear_greed" now, st)) ∧
    (∀ (ticker : String) (d : TickerInfo) (now : ℚ), d.closes.length < 15 →
      (mkStockData ticker d now).rsi = none) := by
  refine ⟨fun st now t => ?_, fun st now s => ?_, fun st now => ?_,
    fun st now j hj => ?_, fun ticker d now hlen => ?_⟩
  · unfold get_stock_data
    cases hc : _get_from_cache st ("stock_" ++ t) now <;> simp [hc]
  · unfold get_index_data
    cases hc : _get_from_cache st ("index_" ++ s) now <;> simp [hc]
  · unfold get_fear_greed_index
    cases hc : _get_from_cache st "fear_greed" now <;> simp [hc]
  · unfold get_fear_greed_index
    cases hc : _get_from_cache st "fear_greed" now <;> simp [hc, hj]
  · show _calculate_rsi d.closes 14 = none
    unfold _calculate_rsi
    simp [hlen]

/-- Witness for C5: a provider body with a missing sentiment score produces
an absent result, and a quote built from empty history has an absent RSI. -/
theorem fetchers_never_raise_witness :
    get_fear_greed_index (emptyCache FGResult) 0 (.ok ⟨none, none⟩)
      = (none, emptyCache FGResult) ∧
    (mkStockData "A" tiEmpty 0).rsi = none :=
  ⟨fetchers_never_raise.2.2.2.1 (emptyCache FGResult) 0 ⟨none, none⟩ rfl,
   fetchers_never_raise.2.2.2.2 "A" tiEmpty 0 (by decide)⟩

/-! ### C4: change / change_pct derivation -/

/-- C4.  In every freshly assembled quote (equity and index alike):
`change_pct` is absent when `previous_close` is absent or not positive;
when `previous_close = p > 0`, `current_price` is necessarily present, and
`change = current - p`, `change_pct = (current - p)/p*100` exactly. -/
theorem change_pct_policy (ticker symbol : String) (d : TickerInfo)
    (di : IndexInfo) (now : ℚ) :
    ((mkStockData ticker d now).previous_close = none →
      (mkStockData ticker d now).change = none ∧
      (mkStockData ticker d now).change_pct = none) ∧
    (∀ p, (mkStockData ticker d now).previous_close = some p → p ≤ 0 →
      (mkStockData ticker d now).change = none ∧
      (mkStockData ticker d now).change_pct = none) ∧
    (∀ p, (mkStockData ticker d now).previous_close = some p → 0 < p →
      ∃ c, (mkStockData ticker d now).current_price = some c ∧
        (mkStockData ticker d now).change = some (c - p) ∧
        (mkStockData ticker d now).change_pct = some ((c - p) / p * 100)) ∧
    ((mkIndexData symbol di now).previous_close = none →
      (mkIndexData symbol di now).change = none ∧
      (mkIndexData symbol di now).change_pct = none) ∧
    (∀ p, (mkIndexData symbol di now).previous_close = some p → p ≤ 0 →
      (mkIndexData symbol di now).change = none ∧
      (mkIndexData symbol di now).change_pct = none) ∧
    (∀ p, (mkIndexData symbol di now).previous_close = some p → 0 < p →
      ∃ c, (mkIndexData symbol di now).current = some c ∧
        (mkIndexData symbol di now).change = some (c - p) ∧
        (mkIndexData symbol di now).change_pct = some ((c - p) / p * 100)) := by
  refine ⟨fun h => ?_, fun p hp hple => ?_, fun p hp hpos => ?_,
    fun h => ?_, fun p hp hple => ?_, fun p hp hpos => ?_⟩
  · have hd : d.previousClose = none := h
    constructor <;> simp [mkStockData, hd, pyTruthyQ]
  · have hd : d.previousClose = some p := hp
    constructor <;>
      simp [mkStockData, hd, pyTruthyQ, Option.getD, not_lt.2 hple]
  · have hd : d.previousClose = some p := hp
    have hptrue : pyTruthyQ (pyOrQ d.currentPrice
        (pyOrQ d.regularMarketPrice d.previousClose)) = true := by
      rw [pyTruthyQ_pyOrQ, pyTruthyQ_pyOrQ, hd]
      simp [pyTruthyQ, hpos.ne']
    obtain ⟨c, hc, hc0⟩ := (pyTruthyQ_some_iff _).mp hptrue
    rw [hd] at hc
    refine ⟨c, ?_, ?_, ?_⟩ <;>
      simp [mkStockData, hd, hc, pyTruthyQ, hc0, hpos, hpos.ne']
  · have hd : di.previousClose = none := h
    constructor <;> simp [mkIndexData, hd, pyTruthyQ]
  · have hd : di.previousClose = some p := hp
    constructor <;>
      simp [mkIndexData, hd, pyTruthyQ, Option.getD, not_lt.2 hple]
  · have hd : di.previousClose = some p := hp
    have hptrue : pyTruthyQ (pyOrQ di.regularMarketPrice di.previousClose)
        = true := by
      rw [pyTruthyQ_pyOrQ, hd]
      simp [pyTruthyQ, hpos.ne']
    obtain ⟨c, hc, hc0⟩ := (pyTruthyQ_some_iff _).mp hptrue
    rw [hd] at hc
    refine ⟨c, ?_, ?_, ?_⟩ <;>
      simp [mkIndexData, hd, hc, pyTruthyQ, hc0, hpos, hpos.ne']

/-- Witness for C4: previous close 100 and current price 110 give
`change = 10` and `change_pct = 10`; a previous close of 0 gives absent. -/
theorem change_pct_policy_witness :
    ((mkStockData "A"
        { tiEmpty with currentPrice := some 110, previousClose := some 100 }
        0).change = some (110 - 100) ∧
      (mkStockData "A"
        { tiEmpty with currentPrice := some 110, previousClose := some 100 }
        0).change_pct = some ((110 - 100) / 100 * 100)) ∧
    (mkIndexData "^GSPC" ⟨none, some 0, none, none⟩ 0).change_pct = none := by
  have h1 := (change_pct_policy "A" "^GSPC"
    { tiEmpty with currentPrice := some 110, previousClose := some 100 }
    ⟨none, some 0, none, none⟩ 0).2.2.1 100 rfl (by norm_num)
  have h2 := (change_pct_policy "A" "^GSPC"
    { tiEmpty with currentPrice := some 110, previousClose := some 100 }
    ⟨none, some 0, none, none⟩ 0).2.2.2.2.1 0 rfl (by norm_num)
  obtain ⟨c, hc, hch, hpct⟩ := h1
  have hc110 : c = 110 := by
    have : (mkStockData "A"
        { tiEmpty with currentPrice := some 110, previousClose := some 100 }
        0).current_price = some 110 := by decide
    rw [this] at hc
    exact (Option.some_inj.mp hc).symm
  subst hc110
  exact ⟨⟨hch, hpct⟩, h2.2⟩

/-! ### RSI helper lemmas -/

lemma foldl_avg_zero (p : ℚ) (l : List ℚ) (h : ∀ x ∈ l, x = 0) :
    l.foldl (fun avg g => (avg * (p - 1) + g) / p) 0 = 0 := by
  induction l with
  | nil => rfl
  | cons x t ih =>
    simp only [List.foldl_cons, h x (List.mem_cons_self x t), zero_mul,
      zero_add, zero_div]
    exact ih (fun y hy => h y (List.mem_cons_of_mem x hy))

lemma foldl_avg_nonneg (p : ℚ) (hp : 1 ≤ p) (l : List ℚ)
    (h : ∀ x ∈ l, 0 ≤ x) :
    ∀ a : ℚ, 0 ≤ a → 0 ≤ l.foldl (fun avg g => (avg * (p - 1) + g) / p) a := by
  induction l with
  | nil => exact fun a ha => ha
  | cons x t ih =>
    intro a ha
    simp only [List.foldl_cons]
    refine ih (fun y hy => h y (List.mem_cons_of_mem x hy)) _ ?_
    have hx := h x (List.mem_cons_self x t)
    have hnum : 0 ≤ a * (p - 1) + x := by nlinarith
    exact div_nonneg hnum (by linarith)

lemma foldl_avg_pos (p : ℚ) (hp : 1 < p) (l : List ℚ)
    (h : ∀ x ∈ l, 0 ≤ x) :
    ∀ a : ℚ, 0 < a → 0 < l.foldl (fun avg g => (avg * (p - 1) + g) / p) a := by
  induction l with
  | nil => exact fun a ha => ha
  | cons x t ih =>
    intro a ha
    simp only [List.foldl_cons]
    refine ih (fun y hy => h y (List.mem_cons_of_mem x hy)) _ ?_
    have hx := h x (List.mem_cons_self x t)
    have hnum : 0 < a * (p - 1) + x := by nlinarith
    exact div_pos hnum (by linarith)

lemma deltas_pos_of_chain (l : List ℚ) (h : List.Chain' (· < ·) l) :
    ∀ d ∈ List.zipWith (fun a b => b - a) l l.tail, 0 < d := by
  induction l with
  | nil => intro d hd; simp at hd
  | cons a t ih =>
    intro d hd
    cases t with
    | nil => simp at hd
    | cons b t' =>
      rw [List.chain'_cons] at h
      simp only [List.tail_cons, List.zipWith_cons_cons, List.mem_cons] at hd
      rcases hd with rfl | hd
      · linarith [h.1]
      · exact ih h.2 d hd

lemma deltas_neg_of_chain (l : List ℚ) (h : List.Chain' (· > ·) l) :
    ∀ d ∈ List.zipWith (fun a b => b - a) l l.tail, d < 0 := by
  induction l with
  | nil => intro d hd; simp at hd
  | cons a t ih =>
    intro d hd
    cases t with
    | nil => simp at hd
    | cons b t' =>
      rw [List.chain'_cons] at h
      simp only [List.tail_cons, List.zipWith_cons_cons, List.mem_cons] at hd
      rcases hd with rfl | hd
      · have : b < a := h.1
        linarith
      · exact ih h.2 d hd

/-! ### C1: the RSI computation matches its specification -/

/-- C1.  `_calculate_rsi` at period 14 behaves exactly as specified: absent
below 15 points, otherwise deltas are split into gains and losses, averages
are seeded as simple means of the first 14 and smoothed with
`avg = (avg*13 + new)/14`, returning `100` when the final average loss is
zero and `round(100 - 100/(1 + avg_gain/avg_loss), 1)` otherwise. -/
theorem rsi_matches_spec :
    (∀ closes : List ℚ, _calculate_rsi closes 14 = rsiSpec closes) ∧
    (∀ closes : List ℚ, closes.length < 15 → _calculate_rsi closes 14 = none) := by
  constructor
  · intro closes
    have hg : (fun d : ℚ => if d < 0 then (0:ℚ) else d)
        = fun d : ℚ => if 0 < d then d else 0 := by
      funext d
      rcases lt_trichotomy d 0 with h | h | h
      · rw [if_pos h, if_neg (by linarith)]
      · simp [h]
      · rw [if_neg (by linarith), if_pos h]
    have hl : (fun d : ℚ => if 0 < d then (0:ℚ) else -d)
        = fun d : ℚ => if d < 0 then -d else 0 := by
      funext d
      rcases lt_trichotomy d 0 with h | h | h
      · rw [if_neg (by linarith), if_pos h]
      · simp [h]
      · rw [if_pos h, if_neg (by linarith)]
    simp only [_calculate_rsi, rsiSpec, hg, hl, Nat.cast_ofNat,
      show ((14:ℚ) - 1 = 13) by norm_num, show ((14:ℕ) + 1 = 15) from rfl]
  · intro closes h
    unfold _calculate_rsi
    rw [if_pos (by omega)]

/-- Witness for C1: a 10-point history is below the 15-point threshold and
yields an absent RSI. -/
theorem rsi_matches_spec_witness :
    _calculate_rsi (List.replicate 10 0) 14 = none :=
  rsi_matches_spec.2 (List.replicate 10 0) (by decide)

/-! ### C6: RSI extremes on monotone series -/

/-- C6.  On a strictly increasing closing-price series of length at least 15
every loss is zero, so `_calculate_rsi` returns 100; on a strictly
decreasing one every gain is zero and the average loss stays positive, so
it returns 0. -/
theorem rsi_monotone_extremes (closes : List ℚ) :
    (List.Chain' (· < ·) closes → 15 ≤ closes.length →
      _calculate_rsi closes 14 = some 100) ∧
    (List.Chain' (· > ·) closes → 15 ≤ closes.length →
      _calculate_rsi closes 14 = some 0) := by
  constructor
  · intro hmono hlen
    unfold _calculate_rsi
    rw [if_neg (by omega)]
    have hloss : ∀ x ∈ (List.zipWith (fun a b => b - a) closes
        closes.tail).map (fun d => if 0 < d then (0:ℚ) else -d), x = 0 := by
      intro x hx
      simp only [List.mem_map] at hx
      obtain ⟨d, hd, rfl⟩ := hx
      have hdpos := deltas_pos_of_chain closes hmono d hd
      simp [hdpos]
    have hsum : (((List.zipWith (fun a b => b - a) closes closes.tail).map
        (fun d => if 0 < d then (0:ℚ) else -d)).take 14).sum = 0 :=
      List.sum_eq_zero (fun x hx => hloss x (List.mem_of_mem_take hx))
    simp only [hsum, zero_div]
    rw [foldl_avg_zero _ _ (fun x hx => hloss x (List.mem_of_mem_drop hx))]
    rw [if_pos rfl]
  · intro hmono hlen
    unfold _calculate_rsi
    rw [if_neg (by omega)]
    have hgain : ∀ x ∈ (List.zipWith (fun a b => b - a) closes
        closes.tail).map (fun d => if d < 0 then (0:ℚ) else d), x = 0 := by
      intro x hx
      simp only [List.mem_map] at hx
      obtain ⟨d, hd, rfl⟩ := hx
      have hdneg := deltas_neg_of_chain closes hmono d hd
      simp [hdneg]
    have hgsum : (((List.zipWith (fun a b => b - a) closes closes.tail).map
        (fun d => if d < 0 then (0:ℚ) else d)).take 14).sum = 0 :=
      List.sum_eq_zero (fun x hx => hgain x (List.mem_of_mem_take hx))
    have hlpos : ∀ x ∈ (List.zipWith (fun a b => b - a) closes
        closes.tail).map (fun d => if 0 < d then (0:ℚ) else -d), 0 < x := by
      intro x hx
      simp only [List.mem_map] at hx
      obtain ⟨d, hd, rfl⟩ := hx
      have hdneg := deltas_neg_of_chain closes hmono d hd
      rw [if_neg (by linarith)]
      linarith
    have hlen' : ((List.zipWith (fun a b => b - a) closes closes.tail).map
        (fun d => if 0 < d then (0:ℚ) else -d)).length = closes.length - 1 := by
      rw [List.length_map, List.length_zipWith, List.length_tail]
      omega
    have htake_ne : (((List.zipWith (fun a b => b - a) closes closes.tail).map
        (fun d => if 0 < d then (0:ℚ) else -d)).take 14) ≠ [] := by
      apply List.ne_nil_of_length_pos
      rw [List.length_take, hlen']
      omega
    have hseed : 0 < (((List.zipWith (fun a b => b - a) closes
        closes.tail).map (fun d => if 0 < d then (0:ℚ) else -d)).take 14).sum
        / ((14:ℕ) : ℚ) := by
      apply div_pos
      · exact List.sum_pos _
          (fun x hx => hlpos x (List.mem_of_mem_take hx)) htake_ne
      · norm_num
    have hfinal : 0 < (((List.zipWith (fun a b => b - a) closes
        closes.tail).map (fun d => if 0 < d then (0:ℚ) else -d)).drop 14).foldl
        (fun avg l => (avg * (((14:ℕ) : ℚ) - 1) + l) / ((14:ℕ) : ℚ))
        ((((List.zipWith (fun a b => b - a) closes closes.tail).map
          (fun d => if 0 < d then (0:ℚ) else -d)).take 14).sum / ((14:ℕ) : ℚ)) :=
      foldl_avg_pos _ (by norm_num) _
        (fun x hx => (hlpos x (List.mem_of_mem_drop hx)).le) _ hseed
    simp only [hgsum, zero_div]
    rw [foldl_avg_zero _ _ (fun x hx => by
      have := hgain _ (List.mem_of_mem_drop hx); exact this)]
    rw [if_neg hfinal.ne']
    rw [zero_div, show (100:ℚ) - 100 / (1 + 0) = 0 by norm_num]
    rw [show round1 0 = 0 by norm_num [round1]]

/-- Witness for C6: the strictly increasing series 1..15 has RSI 100, and
the strictly decreasing series 15..1 has RSI 0. -/
theorem rsi_monotone_extremes_witness :
    _calculate_rsi [1, 2, 3, 4, 5, 6, 7, 8, 9, 10, 11, 12, 13, 14, 15] 14
      = some 100 ∧
    _calculate_rsi [15, 14, 13, 12, 11, 10, 9, 8, 7, 6, 5, 4, 3, 2, 1] 14
      = some 0 :=
  ⟨(rsi_monotone_extremes _).1
      (by norm_num [List.chain'_cons, List.chain'_singleton]) (by decide),
   (rsi_monotone_extremes _).2
      (by norm_num [List.chain'_cons, List.chain'_singleton]) (by decide)⟩

/-! ### C8: RSI range -/

lemma round1_bounds (x : ℚ) (h0 : 0 ≤ x) (h1 : x < 100) :
    0 ≤ round1 x ∧ round1 x ≤ 100 := by
  unfold round1
  constructor
  · have hr : (0:ℤ) ≤ round (10 * x) := by
      rw [round_eq]
      exact Int.floor_nonneg.mpr (by linarith)
    have : (0:ℚ) ≤ ((round (10 * x) : ℤ) : ℚ) := by exact_mod_cast hr
    linarith
  · have hr : round (10 * x) ≤ 1000 := by
      rw [round_eq]
      have hle : (10 * x + 1/2 : ℚ) ≤ 2001/2 := by linarith
      have := Int.floor_le_floor hle
      have h2001 : ⌊(2001/2 : ℚ)⌋ = 1000 := by norm_num
      omega
    have : ((round (10 * x) : ℤ) : ℚ) ≤ 1000 := by exact_mod_cast hr
    linarith

/-- C8.  Whenever `_calculate_rsi` returns a value, that value lies in the
closed interval `[0, 100]`. -/
theorem rsi_range (closes : List ℚ) (r : ℚ)
    (h : _calculate_rsi closes 14 = some r) : 0 ≤ r ∧ r ≤ 100 := by
  unfold _calculate_rsi at h
  by_cases hlen : closes.length < 14 + 1
  · rw [if_pos hlen] at h
    exact absurd h (by simp)
  · rw [if_neg hlen] at h
    set losses := (List.zipWith (fun a b => b - a) closes closes.tail).map
      (fun d => if 0 < d then (0:ℚ) else -d) with hlossdef
    set gains := (List.zipWith (fun a b => b - a) closes closes.tail).map
      (fun d => if d < 0 then (0:ℚ) else d) with hgaindef
    have hgnn : ∀ x ∈ gains, 0 ≤ x := by
      intro x hx
      rw [hgaindef] at hx
      simp only [List.mem_map] at hx
      obtain ⟨d, hd, rfl⟩ := hx
      split
      · exact le_refl 0
      · next hd0 => linarith [not_lt.mp hd0]
    have hlnn : ∀ x ∈ losses, 0 ≤ x := by
      intro x hx
      rw [hlossdef] at hx
      simp only [List.mem_map] at hx
      obtain ⟨d, hd, rfl⟩ := hx
      split
      · exact le_refl 0
      · next hd0 => linarith [not_lt.mp hd0]
    have hG : 0 ≤ (gains.drop 14).foldl
        (fun avg g => (avg * (((14:ℕ) : ℚ) - 1) + g) / ((14:ℕ) : ℚ))
        ((gains.take 14).sum / ((14:ℕ) : ℚ)) := by
      refine foldl_avg_nonneg _ (by norm_num) _
        (fun x hx => hgnn x (List.mem_of_mem_drop hx)) _ ?_
      exact div_nonneg
        (List.sum_nonneg (fun x hx => hgnn x (List.mem_of_mem_take hx)))
        (by norm_num)
    have hL : 0 ≤ (losses.drop 14).foldl
        (fun avg l => (avg * (((14:ℕ) : ℚ) - 1) + l) / ((14:ℕ) : ℚ))
        ((losses.take 14).sum / ((14:ℕ) : ℚ)) := by
      refine foldl_avg_nonneg _ (by norm_num) _
        (fun x hx => hlnn x (List.mem_of_mem_drop hx)) _ ?_
      exact div_nonneg
        (List.sum_nonneg (fun x hx => hlnn x (List.mem_of_mem_take hx)))
        (by norm_num)
    by_cases hzero : (losses.drop 14).foldl
        (fun avg l => (avg * (((14:ℕ) : ℚ) - 1) + l) / ((14:ℕ) : ℚ))
        ((losses.take 14).sum / ((14:ℕ) : ℚ)) = 0
    · rw [if_pos hzero] at h
      have : r = 100 := by exact_mod_cast (Option.some_inj.mp h).symm
      subst this
      norm_num
    · rw [if_neg hzero] at h
      have hLpos : 0 < (losses.drop 14).foldl
          (fun avg l => (avg * (((14:ℕ) : ℚ) - 1) + l) / ((14:ℕ) : ℚ))
          ((losses.take 14).sum / ((14:ℕ) : ℚ)) := lt_of_le_of_ne hL (Ne.symm hzero)
      set G := (gains.drop 14).foldl
        (fun avg g => (avg * (((14:ℕ) : ℚ) - 1) + g) / ((14:ℕ) : ℚ))
        ((gains.take 14).sum / ((14:ℕ) : ℚ))
      set L := (losses.drop 14).foldl
        (fun avg l => (avg * (((14:ℕ) : ℚ) - 1) + l) / ((14:ℕ) : ℚ))
        ((losses.take 14).sum / ((14:ℕ) : ℚ))
      have hrs : 0 ≤ G / L := div_nonneg hG hLpos.le
      have hden : (1:ℚ) ≤ 1 + G / L := by linarith
      have hfrac_pos : 0 < 100 / (1 + G / L) := by positivity
      have hfrac_le : 100 / (1 + G / L) ≤ 100 :=
        div_le_self (by norm_num) hden
      have hraw0 : 0 ≤ 100 - 100 / (1 + G / L) := by linarith
      have hraw1 : 100 - 100 / (1 + G / L) < 100 := by linarith
      have hr : r = round1 (100 - 100 / (1 + G / L)) :=
        (Option.some_inj.mp h).symm
      subst hr
      exact round1_bounds _ hraw0 hraw1

/-- Witness for C8: the strictly rising 15-point history 0..14 yields RSI
100, which lies in `[0, 100]`. -/
theorem rsi_range_witness :
    _calculate_rsi [0, 1, 2, 3, 4, 5, 6, 7, 8, 9, 10, 11, 12, 13, 14] 14
      = some 100 ∧
    (0:ℚ) ≤ 100 ∧ (100:ℚ) ≤ 100 :=
  ⟨by norm_num [_calculate_rsi],
   rsi_range [0, 1, 2, 3, 4, 5, 6, 7, 8, 9, 10, 11, 12, 13, 14] 100
     (by norm_num [_calculate_rsi])⟩


/-! ### C3: batch fetch returns partial results -/

lemma stock_key_inj (a b : String) (h : "stock_" ++ a = "stock_" ++ b) :
    a = b := by
  have hd := congrArg String.data h
  rw [String.data_append, String.data_append] at hd
  exact String.ext (List.append_cancel_left hd)

lemma dictLookup_map_update_ne {α : Type} (l : List (String × α))
    (t s : String) (v : α) (h : s ≠ t) :
    dictLookup (l.map (fun p => if p.1 = t then (t, v) else p)) s
      = dictLookup l s := by
  induction l with
  | nil => rfl
  | cons p ps ih =>
    unfold dictLookup at *
    simp only [List.map_cons]
    by_cases hp : p.1 = t
    · rw [if_pos hp]
      rw [List.find?_cons_of_neg _ (by simp [Ne.symm h]),
        List.find?_cons_of_neg _ (by simp [hp, Ne.symm h])]
      exact ih
    · rw [if_neg hp]
      by_cases hps : p.1 = s
      · rw [List.find?_cons_of_pos _ (by simp [hps]),
          List.find?_cons_of_pos _ (by simp [hps])]
      · rw [List.find?_cons_of_neg _ (by simp [hps]),
          List.find?_cons_of_neg _ (by simp [hps])]
        exact ih

lemma dictLookup_append_single_ne {α : Type} (l : List (String × α))
    (t s : String) (v : α) (h : s ≠ t) :
    dictLookup (l ++ [(t, v)]) s = dictLookup l s := by
  unfold dictLookup
  rw [List.find?_append]
  cases hf : l.find? (fun p => p.1 = s) with
  | some q => simp [hf]
  | none =>
    simp only [hf, Option.none_or]
    rw [List.find?_cons_of_neg _ (by simp [Ne.symm h])]
    rfl

lemma dictLookup_insert_ne {α : Type} (l : List (String × α)) (t s : String)
    (v : α) (h : s ≠ t) :
    dictLookup (dictInsert l t v) s = dictLookup l s := by
  unfold dictInsert
  split
  · exact dictLookup_map_update_ne l t s v h
  · exact dictLookup_append_single_ne l t s v h


lemma dictLookup_insert_self {α : Type} (l : List (String × α)) (t : String)
    (v : α) :
    dictLookup (dictInsert l t v) t = some v := by
  have hmap : ∀ (l' : List (String × α)),
      l'.any (fun p => p.1 = t) = true →
      dictLookup (l'.map (fun p => if p.1 = t then (t, v) else p)) t
        = some v := by
    intro l'
    induction l' with
    | nil => intro h; simp at h
    | cons p ps ih =>
      intro h
      unfold dictLookup
      simp only [List.map_cons]
      by_cases hp : p.1 = t
      · rw [if_pos hp, List.find?_cons_of_pos _ (by simp)]
        rfl
      · rw [if_neg hp, List.find?_cons_of_neg _ (by simp [hp])]
        apply ih
        simpa [List.any_cons, hp] using h
  unfold dictInsert
  split
  · next h => exact hmap l h
  · next h =>
    unfold dictLookup
    rw [List.find?_append]
    have hnone : l.find? (fun p => p.1 = t) = none := by
      rw [List.find?_eq_none]
      intro p hp
      simp only [Bool.not_eq_true, decide_eq_false_iff_not]
      intro hpt
      exact h (List.any_eq_true.mpr ⟨p, hp, by simp [hpt]⟩)
    rw [hnone, Option.none_or, List.find?_cons_of_pos _ (by simp)]
    rfl

lemma get_from_cache_set_ne {V : Type} (st : CacheSt V) (k k' : String)
    (v : V) (tset now : ℚ) (h : k' ≠ k) :
    _get_from_cache (_set_cache st k v tset) k' now
      = _get_from_cache st k' now := by
  unfold _get_from_cache _set_cache
  simp only [if_neg h]

lemma batchGo_trace (now : ℚ) (provider : String → Except Unit TickerInfo)
    (s : String) :
    ∀ (tickers : List String) (st : CacheSt StockQuote)
      (acc : List (String × StockQuote)),
      dictLookup (batchGo now provider tickers st acc).1 s
        = (batchTrace now provider tickers st).foldl
            (fun a p => if p.1 = s then p.2.or a else a) (dictLookup acc s) := by
  intro tickers
  induction tickers with
  | nil => intro st acc; rfl
  | cons t rest ih =>
    intro st acc
    cases hfetch : get_stock_data st now t (provider t) with
    | mk data st' =>
      cases data with
      | none =>
        simp only [batchGo, batchTrace, hfetch, List.foldl_cons]
        rw [ih st' acc]
        congr 1
        by_cases hts : t = s <;> simp [hts]
      | some q =>
        simp only [batchGo, batchTrace, hfetch, List.foldl_cons]
        rw [ih st' (dictInsert acc t q)]
        congr 1
        by_cases hts : t = s
        · subst hts
          simp [dictLookup_insert_self]
        · simp [hts, dictLookup_insert_ne _ _ _ _ (Ne.symm hts)]

lemma lastSuccess_keeps_some (s : String) :
    ∀ (tr : List (String × Option StockQuote)) (q : StockQuote),
      ∃ q', tr.foldl (fun a p => if p.1 = s then p.2.or a else a) (some q)
        = some q' := by
  intro tr
  induction tr with
  | nil => intro q; exact ⟨q, rfl⟩
  | cons p tr' ih =>
    intro q
    simp only [List.foldl_cons]
    by_cases hps : p.1 = s
    · rw [if_pos hps]
      cases hp2 : p.2 with
      | none => rw [Option.none_or]; exact ih q
      | some q2 =>
        have hor : (some q2).or (some q) = some q2 := rfl
        rw [hor]
        exact ih q2
    · rw [if_neg hps]
      exact ih q

lemma lastSuccess_of_mem (s : String) :
    ∀ (tr : List (String × Option StockQuote)) (init : Option StockQuote),
      (∃ q, (s, some q) ∈ tr) →
      ∃ q', tr.foldl (fun a p => if p.1 = s then p.2.or a else a) init
        = some q' := by
  intro tr
  induction tr with
  | nil =>
    intro init h
    obtain ⟨q, hq⟩ := h
    simp at hq
  | cons p tr' ih =>
    intro init h
    obtain ⟨q, hq⟩ := h
    simp only [List.foldl_cons]
    rcases List.mem_cons.mp hq with heq | hmem
    · rw [← heq]
      have hor : (if ((s : String), some q).1 = s
          then (((s : String), some q).2).or init else init) = some q := by
        simp
      rw [hor]
      exact lastSuccess_keeps_some s tr' q
    · exact ih _ ⟨q, hmem⟩

lemma mem_of_lastSuccess (s : String) :
    ∀ (tr : List (String × Option StockQuote)) (init : Option StockQuote)
      (q' : StockQuote),
      tr.foldl (fun a p => if p.1 = s then p.2.or a else a) init = some q' →
      (∃ q, (s, some q) ∈ tr) ∨ (∃ q, init = some q) := by
  intro tr
  induction tr with
  | nil => intro init q' h; exact Or.inr ⟨q', h⟩
  | cons p tr' ih =>
    intro init q' h
    simp only [List.foldl_cons] at h
    rcases ih _ q' h with hsucc | hinit
    · obtain ⟨q, hm⟩ := hsucc
      exact Or.inl ⟨q, List.mem_cons_of_mem p hm⟩
    · obtain ⟨qq, hqq⟩ := hinit
      by_cases hps : p.1 = s
      · cases hp2 : p.2 with
        | some q2 =>
          refine Or.inl ⟨q2, ?_⟩
          have hpeq : p = (s, some q2) := by
            cases p
            simp only at hps hp2
            rw [hps, hp2]
          rw [hpeq]
          exact List.mem_cons_self _ _
        | none =>
          rw [if_pos hps, hp2, Option.none_or] at hqq
          exact Or.inr ⟨qq, hqq⟩
      · rw [if_neg hps] at hqq
        exact Or.inr ⟨qq, hqq⟩

lemma batchGo_not_fetched (now : ℚ) (provider : String → Except Unit TickerInfo)
    (s : String) (hs : provider s = .error ()) :
    ∀ (tickers : List String) (st : CacheSt StockQuote)
      (acc : List (String × StockQuote)),
      _get_from_cache st ("stock_" ++ s) now = none → dictLookup acc s = none →
      dictLookup (batchGo now provider tickers st acc).1 s = none := by
  intro tickers
  induction tickers with
  | nil => intro st acc _ hacc; exact hacc
  | cons t rest ih =>
    intro st acc hst hacc
    by_cases hts : t = s
    · subst hts
      simp only [batchGo, get_stock_data, hst, hs]
      exact ih st acc hst hacc
    · cases hc : _get_from_cache st ("stock_" ++ t) now with
      | some q =>
        simp only [batchGo, get_stock_data, hc]
        refine ih st _ hst ?_
        rw [dictLookup_insert_ne _ _ _ _ (Ne.symm hts)]
        exact hacc
      | none =>
        cases hp : provider t with
        | error e =>
          simp only [batchGo, get_stock_data, hc, hp]
          exact ih st acc hst hacc
        | ok d =>
          simp only [batchGo, get_stock_data, hc, hp]
          refine ih _ _ ?_ ?_
          · rw [get_from_cache_set_ne st ("stock_" ++ t) ("stock_" ++ s)
              (mkStockData t d now) now now
              (fun hk => hts (stock_key_inj s t hk).symm)]
            exact hst
          · rw [dictLookup_insert_ne _ _ _ _ (Ne.symm hts)]
            exact hacc

/-- C3.  For every input list of symbols, every starting cache state and
every provider behaviour, the mapping `batch_get_stocks` returns contains
exactly the symbols whose individual `get_stock_data` invocation (against
the loop's threaded cache state, recorded by `batchTrace`) succeeded, each
mapped to the quote that fetch returned: the lookup equals the claim-worded
`lastSuccessfulQuote` of the trace, a symbol is present iff one of its
fetches returned a quote, a symbol whose provider call raises and that has
no valid (unexpired) cache entry is omitted, and on `[A, B, C]` with `B`
failing the result is `{A ↦ quote, C ↦ quote}` — no failure aborts the
batch. -/
theorem batch_partial_results :
    (∀ (tickers : List String) (st : CacheSt StockQuote) (now : ℚ)
       (provider : String → Except Unit TickerInfo) (s : String),
      dictLookup (batch_get_stocks tickers st now provider).1 s
        = lastSuccessfulQuote (batchTrace now provider tickers st) s) ∧
    (∀ (tickers : List String) (st : CacheSt StockQuote) (now : ℚ)
       (provider : String → Except Unit TickerInfo) (s : String),
      (∃ q, dictLookup (batch_get_stocks tickers st now provider).1 s = some q)
        ↔ (∃ q, (s, some q) ∈ batchTrace now provider tickers st)) ∧
    (∀ (tickers : List String) (st : CacheSt StockQuote) (now : ℚ)
       (provider : String → Except Unit TickerInfo) (s : String),
      provider s = .error () →
      _get_from_cache st ("stock_" ++ s) now = none →
      dictLookup (batch_get_stocks tickers st now provider).1 s = none) ∧
    (∀ (now : ℚ) (provider : String → Except Unit TickerInfo)
       (dA dC : TickerInfo),
      provider "A" = .ok dA → provider "B" = .error () →
      provider "C" = .ok dC →
      (batch_get_stocks ["A", "B", "C"] (emptyCache StockQuote) now provider).1
        = [("A", mkStockData "A" dA now), ("C", mkStockData "C" dC now)]) := by
  have hmain : ∀ (tickers : List String) (st : CacheSt StockQuote) (now : ℚ)
      (provider : String → Except Unit TickerInfo) (s : String),
      dictLookup (batch_get_stocks tickers st now provider).1 s
        = lastSuccessfulQuote (batchTrace now provider tickers st) s := by
    intro tickers st now provider s
    unfold batch_get_stocks lastSuccessfulQuote
    exact batchGo_trace now provider s tickers st []
  refine ⟨hmain, fun tickers st now provider s => ?_,
    fun tickers st now provider s hs hst => ?_,
    fun now provider dA dC hA hB hC => ?_⟩
  · rw [hmain tickers st now provider s]
    unfold lastSuccessfulQuote
    constructor
    · rintro ⟨q, hq⟩
      rcases mem_of_lastSuccess s _ none q hq with h | ⟨q', hq'⟩
      · exact h
      · exact Option.noConfusion hq'
    · rintro ⟨q, hmem⟩
      exact lastSuccess_of_mem s _ none ⟨q, hmem⟩
  · unfold batch_get_stocks
    exact batchGo_not_fetched now provider s hs tickers st [] hst rfl
  · have hmissA : _get_from_cache (emptyCache StockQuote) ("stock_" ++ "A") now
        = none := rfl
    have hkBA : ("stock_" ++ "B" : String) ≠ "stock_" ++ "A" := by decide
    have hmissB : _get_from_cache
        (_set_cache (emptyCache StockQuote) ("stock_" ++ "A")
          (mkStockData "A" dA now) now) ("stock_" ++ "B") now = none := by
      unfold _get_from_cache _set_cache emptyCache
      simp only [if_neg hkBA]
    have hkCA : ("stock_" ++ "C" : String) ≠ "stock_" ++ "A" := by decide
    have hmissC : _get_from_cache
        (_set_cache (emptyCache StockQuote) ("stock_" ++ "A")
          (mkStockData "A" dA now) now) ("stock_" ++ "C") now = none := by
      unfold _get_from_cache _set_cache emptyCache
      simp only [if_neg hkCA]
    simp only [batch_get_stocks, batchGo, get_stock_data, hmissA, hA, hmissB,
      hB, hmissC, hC, dictInsert, List.any_nil, List.any_cons, List.nil_append,
      List.cons_append, Bool.false_or]
    norm_num [dictInsert]
    decide

/-- Witness for C3: the concrete batch `["A", "B", "C"]` against the empty
cache with a provider that raises exactly on `"B"`, and the omission of a
raising symbol whose only cache entry is expired (stored at 0, read at
400). -/
theorem batch_partial_results_witness :
    (batch_get_stocks ["A", "B", "C"] (emptyCache StockQuote) 0 provABC).1
      = [("A", mkStockData "A" tiEmpty 0), ("C", mkStockData "C" tiEmpty 0)] ∧
    dictLookup (batch_get_stocks ["B"]
        (_set_cache (emptyCache StockQuote) ("stock_" ++ "B")
          (mkStockData "B" tiEmpty 0) 0) 400 provABC).1 "B" = none :=
  ⟨batch_partial_results.2.2.2 0 provABC tiEmpty tiEmpty rfl rfl rfl,
   batch_partial_results.2.2.1 ["B"]
     (_set_cache (emptyCache StockQuote) ("stock_" ++ "B")
       (mkStockData "B" tiEmpty 0) 0) 400 provABC "B" rfl
     (by norm_num [_get_from_cache, _set_cache, emptyCache, cache_duration])⟩
